import Mathlib

/-
Verification of the three scripts in this repository:
`theathre.py` (restyle pipeline), `rename_theatre_files.py` (file
renamer) and `contour_generator.py` (contour extractor).

The code is embedded shallowly: the external world (HTTP responses,
the filesystem listing, the clock, the vision library) is passed in as
explicit data or oracle functions, and every function of the scripts
becomes a total Lean function over those inputs.
-/

namespace Restyle

/-- Python truthiness for an optional string: `None` and the empty
string are falsy (`if not input_image_base64`, `if image_url`,
`if not request_id` in `theathre.py`). Returns the string itself when
truthy, mirroring the value the script goes on to use. -/
def pyTruthy (o : Option String) : Option String :=
  match o with
  | none => none
  | some s => if s = "" then none else some s

/-- Outcome of one synchronous HTTP request: a parsed JSON value, or a
raised exception (connection error, request timeout, JSON decode
failure). -/
inductive NetResult (α : Type) : Type where
  | ok (a : α) : NetResult α
  | exn : NetResult α

/-- The fields of the submit (POST) response the script reads:
`request.get("id")`. -/
structure SubmitResp where
  id : Option String

/-- The fields of a poll (GET) response the script reads:
`result.get("status")` and `result.get('result', {}).get('sample')`. -/
structure PollResp where
  status : Option String
  sample : Option String

/-- The external world seen by one attempt of
`generate_stylized_image`: the result of `image_to_base64` (None on
any read error, else the base64 string), the submit response, and the
poll response for each poll iteration. -/
structure AttemptEnv where
  encode : Option String
  submit : NetResult SubmitResp
  poll : Nat → NetResult PollResp

/-- How a single attempt's poll loop ends. -/
inductive PollOutcome : Type where
  | ready (u : String) : PollOutcome
  | noUrl : PollOutcome
  | statusFail : PollOutcome
  | exn : PollOutcome
  | timeout : PollOutcome

/-- `status in ["Processing", "Queued", "Pending"]`: keep polling. -/
def continueStatus (st : Option String) : Bool :=
  st == some "Processing" || st == some "Queued" || st == some "Pending"

/-- `max_polls = 20` in `generate_stylized_image`. -/
def maxPolls : Nat := 20

/-- The poll loop `while poll_count < max_polls` of
`generate_stylized_image`. `pc` is the current `poll_count`, the fuel
argument is `max_polls - poll_count`. Returns how the loop ended and
how many poll GET requests it issued. A raised exception during a poll
is caught by the attempt's outer `try` and ends the attempt. -/
def pollLoop (env : AttemptEnv) (pc : Nat) : Nat → PollOutcome × Nat
  | 0 => (.timeout, 0)
  | fuel + 1 =>
    match env.poll pc with
    | .exn => (.exn, 1)
    | .ok r =>
      if r.status = some "Ready" then
        match pyTruthy r.sample with
        | some u => (.ready u, 1)
        | none => (.noUrl, 1)
      else if continueStatus r.status then
        ((pollLoop env (pc + 1) fuel).1, (pollLoop env (pc + 1) fuel).2 + 1)
      else (.statusFail, 1)

/-- One iteration of the `while retries <= max_retries` loop of
`generate_stylized_image`: encode the image, submit, then poll.
Returns the result URL (or `none` on any failure, which makes the
caller increment `retries`), whether a submit POST was issued, and how
many poll GETs were issued. -/
def runAttempt (env : AttemptEnv) : Option String × Bool × Nat :=
  match pyTruthy env.encode with
  | none => (none, false, 0)
  | some _ =>
    match env.submit with
    | .exn => (none, true, 0)
    | .ok resp =>
      match pyTruthy resp.id with
      | none => (none, true, 0)
      | some _ =>
        match pollLoop env 0 maxPolls with
        | (.ready u, n) => (some u, true, n)
        | (_, n) => (none, true, n)

/-- Observable record of one attempt: the jitter-sleep parameters (the
`random.uniform(1.0, 3.0)` bounds, present exactly when `retries > 0`
at the top of the loop body), whether a submit POST was issued, the
number of poll GETs, and the attempt's result. -/
structure AttemptTrace where
  jitterParams : Option (ℚ × ℚ)
  submitted : Bool
  polls : Nat
  result : Option String

/-- The trace entry of attempt number `k` (the value of `retries` when
the attempt started) against environment `env`. -/
def attemptTrace (k : Nat) (env : AttemptEnv) : AttemptTrace :=
  { jitterParams := if k = 0 then none else some ((1 : ℚ), (3 : ℚ))
    submitted := (runAttempt env).2.1
    polls := (runAttempt env).2.2
    result := (runAttempt env).1 }

/-- The retry loop `while retries <= max_retries` of
`generate_stylized_image`. `k` is the current value of `retries`; the
fuel argument is `max_retries + 1 - retries`. Returns the final result
(`none` after the budget is exhausted) together with the trace of the
attempts that were made. -/
def genLoop (envs : Nat → AttemptEnv) (k : Nat) : Nat → Option String × List AttemptTrace
  | 0 => (none, [])
  | fuel + 1 =>
    match (runAttempt (envs k)).1 with
    | some u => (some u, [attemptTrace k (envs k)])
    | none =>
      ((genLoop envs (k + 1) fuel).1, attemptTrace k (envs k) :: (genLoop envs (k + 1) fuel).2)

/-- `generate_stylized_image(prompt, input_image_path, max_retries)`:
run up to `max_retries + 1` attempts, starting with `retries = 0`.
`envs k` is the external world of the attempt with `retries = k`. -/
def generate_stylized_image (envs : Nat → AttemptEnv) (max_retries : Nat) :
    Option String × List AttemptTrace :=
  genLoop envs 0 (max_retries + 1)

/-- The fields of the result-download GET response the script reads:
`response.status_code` and `response.content`. -/
structure DownloadResp where
  status_code : Nat
  content : List Nat

/-- `save_image_from_url(url, filename, output_dir)`: on a 200
response write the body to `output_dir/filename` and return True,
otherwise write nothing and return False. The second component is the
file written (path and bytes), `none` when nothing is written. -/
def save_image_from_url (resp : DownloadResp) (filename : String) (output_dir : String) :
    Bool × Option (String × List Nat) :=
  if resp.status_code = 200 then
    (true, some (output_dir ++ "/" ++ filename, resp.content))
  else
    (false, none)

/-- `os.path.splitext`: split a name at its last dot, except when the
name up to that dot is all dots (then there is no extension). -/
def splitExt (s : String) : String × String :=
  let cs := s.toList
  let revTail := cs.reverse.takeWhile (fun c => c != '.')
  if revTail.length = cs.length then (s, "")
  else
    let base := cs.take (cs.length - revTail.length - 1)
    if base.all (fun c => c == '.') then (s, "")
    else (String.mk base, String.mk (cs.drop (cs.length - revTail.length - 1)))

/-- `process_image(input_image_path, prompt, output_dir, max_retries)`:
generate, then on a truthy result URL download and save under
`<base>_stylized_<timestamp><ext>`. `dl` maps a URL to the download
response, `timestamp` is `int(time.time())`. Returns the boolean the
function returns and the file written, if any. -/
def process_image (envs : Nat → AttemptEnv) (dl : String → DownloadResp)
    (timestamp : Nat) (image_filename : String) (output_dir : String) (max_retries : Nat) :
    Bool × Option (String × List Nat) :=
  match pyTruthy (generate_stylized_image envs max_retries).1 with
  | some url =>
    let be := splitExt image_filename
    save_image_from_url (dl url) (be.1 ++ "_stylized_" ++ toString timestamp ++ be.2) output_dir
  | none => (false, none)

/-- `os.path.basename`: the part of a path after its last slash. -/
def baseName (s : String) : String :=
  String.mk ((s.toList.reverse.takeWhile (fun c => c != '/')).reverse)

/-- `results[img_name] = v` on a Python dict represented as an
insertion-ordered association list: replace the value in place if the
key exists, else append. -/
def dictInsert (d : List (String × Bool)) (k : String) (v : Bool) :
    List (String × Bool) :=
  if d.any (fun p => p.1 == k) then
    d.map (fun p => if p.1 == k then (k, v) else p)
  else
    d ++ [(k, v)]

/-- The per-image body of the batch driver's `for img_path in
input_images` loop: `process_image` inside `try`, recording `False`
when it raises. `outcome p` is what `process_image(p, ...)` did for
path `p`: its boolean, or an exception. -/
def tryOutcome (outcome : String → Except Unit Bool) (p : String) : Bool :=
  match outcome p with
  | .ok b => b
  | .error _ => false

/-- The batch driver's `results` dict after processing `input_images`
sequentially. -/
def runBatch (input_images : List String) (outcome : String → Except Unit Bool) :
    List (String × Bool) :=
  input_images.foldl (fun res p => dictInsert res (baseName p) (tryOutcome outcome p)) []

/-- `successful = sum(1 for success in results.values() if success)`. -/
def batchSuccessful (results : List (String × Bool)) : Nat :=
  (results.filter (fun p => p.2)).length

/-- `failures = [name for name, success in results.items() if not success]`. -/
def batchFailures (results : List (String × Bool)) : List String :=
  (results.filter (fun p => !p.2)).map (fun p => p.1)

end Restyle

namespace Renamer

/-- Case-insensitive character comparison, as `re.IGNORECASE` compares
ASCII letters. -/
def ciEq (a b : Char) : Bool :=
  a.toLower == b.toLower

/-- Strip the literal pattern `pat` from the front of `s`,
case-insensitively; `some rest` on success. -/
def dropCI : List Char → List Char → Option (List Char)
  | [], s => some s
  | _ :: _, [] => none
  | p :: ps, c :: cs => if ciEq p c then dropCI ps cs else none

/-- Whether `.*\.jpg` (under `re.IGNORECASE`) matches a prefix of `s`:
some occurrence of `.jpg` (any letter case) is reachable without
crossing a newline, since `.` does not match `\n`. -/
def hasDotJpgCI : List Char → Bool
  | [] => false
  | c :: cs => (dropCI ".jpg".toList (c :: cs)).isSome || (c != '\n' && hasDotJpgCI cs)

/-- `re.compile(r'stalls_r(\d+).*\.jpg', re.IGNORECASE).match(filename)`:
anchored at the start, the literal `stalls_r` (case-insensitive), then
the greedy capture `(\d+)` — the maximal digit run, which the regex
engine keeps whenever any match exists, because giving digits back to
`.*` never enables a match that the maximal run does not — then
`.*\.jpg`. Returns `group(1)` on success. -/
def stallsMatchL (s : List Char) : Option (List Char) :=
  match dropCI "stalls_r".toList s with
  | none => none
  | some rest =>
    let digits := rest.takeWhile Char.isDigit
    if digits.isEmpty then none
    else if hasDotJpgCI (rest.dropWhile Char.isDigit) then some digits
    else none

/-- `pattern.match(filename)` on a filename, returning the captured
digit string. -/
def stallsMatch (s : String) : Option String :=
  (stallsMatchL s.toList).map (fun l => String.mk l)

/-- `new_filename = f"stalls_w{row_number}.jpg"`. -/
def destName (d : String) : String :=
  "stalls_w" ++ d ++ ".jpg"

/-- Whether `glob.glob(os.path.join(directory, "*.jpg"))` lists a
file of this name: `*` matches any run of characters but, per glob's
hidden-file rule, not a leading dot, and the match is case-sensitive
on a POSIX filesystem. -/
def isJpgName (s : String) : Bool :=
  (match s.toList with
   | [] => false
   | c :: _ => c != '.') &&
  decide ([ '.', 'j', 'p', 'g'] <:+ s.toList)

/-- The snapshot `files` taken by `rename_theatre_files` (basenames,
in directory enumeration order). -/
def globJpg (names : List String) : List String :=
  names.filter isJpgName

/-- The `for file_path in files` loop of `rename_theatre_files`.
`st` is the current set of names in the directory (it changes as
renames happen, and the `os.path.exists(new_path)` check consults it),
`pairs` the renames performed so far (`renamed_count` is its length).
`ok f` says whether `os.rename` succeeds for source `f`; when it
raises, the error is caught, nothing changes, and the loop moves on. -/
def renameFilesAux (ok : String → Bool) :
    List String → List String → List (String × String) → List String × List (String × String)
  | [], st, pairs => (st, pairs)
  | f :: rest, st, pairs =>
    match stallsMatch f with
    | none => renameFilesAux ok rest st pairs
    | some d =>
      if destName d ∈ st then renameFilesAux ok rest st pairs
      else if ok f then
        renameFilesAux ok rest (st.erase f ++ [destName d]) (pairs ++ [(f, destName d)])
      else renameFilesAux ok rest st pairs

/-- `rename_theatre_files(directory)` on a directory whose entries are
`listing`: glob the `.jpg` files once, then process them in order.
Returns the final directory contents and the performed renames
(`renamed_count` is the length of the second component). -/
def rename_theatre_files (ok : String → Bool) (listing : List String) :
    List String × List (String × String) :=
  renameFilesAux ok (globJpg listing) listing []

/-- An `os.rename` that always succeeds. -/
def okAll : String → Bool := fun _ => true

end Renamer

namespace Contour

/-- An image as the vision library sees it: a height, a width, and a
pixel grid (three channels). -/
structure Img where
  h : Nat
  w : Nat
  pix : Nat → Nat → Nat × Nat × Nat

/-- `np.zeros_like(img)`: a black image of the same dimensions. -/
def zeros_like (img : Img) : Img :=
  ⟨img.h, img.w, fun _ _ => (0, 0, 0)⟩

/-- `cv2.drawContours(contour_img, contours, -1, (255,255,255), 1)`:
draws strokes onto the image in place — only the pixel grid changes,
never the dimensions. The stroke rasterization itself is the
library's; here the listed contour points are painted, which is all
the dimension claim needs. -/
def drawContours (img : Img) (contours : List (List (Nat × Nat))) (color : Nat × Nat × Nat) :
    Img :=
  { img with
    pix := fun y x =>
      if contours.any (fun c => c.contains (y, x)) then color else img.pix y x }

/-- `generate_contours(threshold1, threshold2, blur_kernel_size)`.
`input` is what `cv2.imread("input.png")` produced (`none` when the
file is unreadable, raising `FileNotFoundError`); `cvt`, `blur` and
`canny` are the external library's grayscale conversion, Gaussian
blur and Canny edge detector; `findContours` is
`cv2.findContours(..., RETR_EXTERNAL, CHAIN_APPROX_SIMPLE)`. Returns
the contour image that is written to `contour_output.png` and
returned. -/
def generate_contours (input : Option Img) (cvt blur canny : Img → Img)
    (findContours : Img → List (List (Nat × Nat))) : Except String Img :=
  match input with
  | none => .error "Could not read image: input.png"
  | some img =>
    let edges := canny (blur (cvt img))
    let contours := findContours edges
    let contour_img := drawContours (zeros_like img) contours (255, 255, 255)
    .ok contour_img

/-- The dimensions of the image a `generate_contours` run produced,
`none` when it raised. -/
def resultDims (r : Except String Img) : Option (Nat × Nat) :=
  match r with
  | .ok img => some (img.h, img.w)
  | .error _ => none

end Contour

/-! ## Lemmas and claim theorems -/

namespace Restyle

/-- The poll loop issues at most as many GETs as it has fuel. -/
lemma pollLoop_snd_le (env : AttemptEnv) :
    ∀ fuel pc, (pollLoop env pc fuel).2 ≤ fuel := by
  intro fuel
  induction fuel with
  | zero => intro pc; simp [pollLoop]
  | succ n ih =>
    intro pc
    cases hp : env.poll pc with
    | exn => simp [pollLoop, hp]
    | ok r =>
      by_cases hR : r.status = some "Ready"
      · cases hs : pyTruthy r.sample <;> simp [pollLoop, hp, hR, hs]
      · by_cases hC : continueStatus r.status
        · simp only [pollLoop, hp, if_neg hR, if_pos hC]
          have := ih (pc + 1)
          omega
        · simp [pollLoop, hp, hR, hC]

/-- One attempt issues at most `maxPolls` poll GETs. -/
lemma runAttempt_polls_le (env : AttemptEnv) : (runAttempt env).2.2 ≤ maxPolls := by
  have h := pollLoop_snd_le env maxPolls 0
  cases he : pyTruthy env.encode with
  | none => simp [runAttempt, he]
  | some b =>
    cases hs : env.submit with
    | exn => simp [runAttempt, he, hs]
    | ok resp =>
      cases hid : pyTruthy resp.id with
      | none => simp [runAttempt, he, hs, hid]
      | some rid =>
        rcases hp : pollLoop env 0 maxPolls with ⟨o, n⟩
        rw [hp] at h
        cases o <;> simp only [runAttempt, he, hs, hid, hp] <;> exact h

/-- The retry loop makes at most `fuel` attempts. -/
lemma genLoop_length_le (envs : Nat → AttemptEnv) :
    ∀ fuel k, (genLoop envs k fuel).2.length ≤ fuel := by
  intro fuel
  induction fuel with
  | zero => intro k; simp [genLoop]
  | succ n ih =>
    intro k
    simp only [genLoop]
    cases h : (runAttempt (envs k)).1 with
    | some u => simp
    | none =>
      simp only [List.length_cons]
      have := ih (k + 1)
      omega

/-- Every attempt in the trace polled at most `maxPolls` times. -/
lemma genLoop_polls_le (envs : Nat → AttemptEnv) :
    ∀ fuel k t, t ∈ (genLoop envs k fuel).2 → t.polls ≤ maxPolls := by
  intro fuel
  induction fuel with
  | zero => intro k t ht; simp [genLoop] at ht
  | succ n ih =>
    intro k t ht
    cases h : (runAttempt (envs k)).1 with
    | some u =>
      simp only [genLoop, h, List.mem_singleton] at ht
      subst ht
      exact runAttempt_polls_le (envs k)
    | none =>
      simp only [genLoop, h, List.mem_cons] at ht
      cases ht with
      | inl he => subst he; exact runAttempt_polls_le (envs k)
      | inr hm => exact ih (k + 1) t hm

/-- The attempt with `retries = k + i` records a jitter sleep exactly
when `k + i > 0`. -/
lemma genLoop_jitter (envs : Nat → AttemptEnv) :
    ∀ fuel k i t, (genLoop envs k fuel).2[i]? = some t →
      t.jitterParams = if k + i = 0 then none else some ((1 : ℚ), (3 : ℚ)) := by
  intro fuel
  induction fuel with
  | zero => intro k i t ht; simp [genLoop] at ht
  | succ n ih =>
    intro k i t ht
    cases hr : (runAttempt (envs k)).1 with
    | some u =>
      simp only [genLoop, hr] at ht
      rcases i with _ | j
      · simp only [List.getElem?_cons_zero, Option.some.injEq] at ht
        subst ht
        simp [attemptTrace]
      · simp at ht
    | none =>
      simp only [genLoop, hr] at ht
      rcases i with _ | j
      · simp only [List.getElem?_cons_zero, Option.some.injEq] at ht
        subst ht
        simp [attemptTrace]
      · simp only [List.getElem?_cons_succ] at ht
        have hih := ih (k + 1) j t ht
        rw [hih]
        have h1 : ¬(k + 1 + j = 0) := by omega
        have h2 : ¬(k + (j + 1) = 0) := by omega
        rw [if_neg h1, if_neg h2]

/-- When the retry loop returns `None`, every attempt in the budget
was made and failed. -/
lemma genLoop_none (envs : Nat → AttemptEnv) :
    ∀ fuel k, (genLoop envs k fuel).1 = none →
      (genLoop envs k fuel).2.length = fuel ∧
      ∀ t ∈ (genLoop envs k fuel).2, t.result = none := by
  intro fuel
  induction fuel with
  | zero => intro k _; simp [genLoop]
  | succ n ih =>
    intro k hnone
    cases hr : (runAttempt (envs k)).1 with
    | some u => simp only [genLoop, hr] at hnone; exact absurd hnone (by simp)
    | none =>
      simp only [genLoop, hr] at hnone ⊢
      have hih := ih (k + 1) hnone
      constructor
      · simp [hih.1]
      · intro t ht
        simp only [List.mem_cons] at ht
        cases ht with
        | inl he => subst he; simp [attemptTrace, hr]
        | inr hm => exact hih.2 t hm

/-- Claim C1: for every prompt, input path and `max_retries ≥ 0`,
`generate_stylized_image` terminates: the trace of attempts has length
at most `max_retries + 1` (so at most that many submit POSTs), each
attempt's poll loop issued at most 20 GETs, every attempt after the
first is preceded by a uniform(1.0, 3.0) jitter sleep and the first is
not, and when the retry counter exceeds `max_retries` (all attempts in
the budget failed) the function returns `None`. -/
theorem C1_generate_terminates_within_budget (envs : Nat → AttemptEnv) (max_retries : Nat) :
    (generate_stylized_image envs max_retries).2.length ≤ max_retries + 1 ∧
    (generate_stylized_image envs max_retries).2.countP (fun t => t.submitted) ≤
      max_retries + 1 ∧
    (∀ t ∈ (generate_stylized_image envs max_retries).2, t.polls ≤ 20) ∧
    (∀ i t, (generate_stylized_image envs max_retries).2[i]? = some t →
      t.jitterParams = if i = 0 then none else some ((1 : ℚ), (3 : ℚ))) ∧
    ((generate_stylized_image envs max_retries).1 = none →
      (generate_stylized_image envs max_retries).2.length = max_retries + 1 ∧
      ∀ t ∈ (generate_stylized_image envs max_retries).2, t.result = none) := by
  refine ⟨genLoop_length_le envs (max_retries + 1) 0, ?_, ?_, ?_, genLoop_none envs (max_retries + 1) 0⟩
  · exact le_trans (List.countP_le_length _) (genLoop_length_le envs (max_retries + 1) 0)
  · exact fun t ht => genLoop_polls_le envs (max_retries + 1) 0 t ht
  · intro i t ht
    have := genLoop_jitter envs (max_retries + 1) 0 i t ht
    simpa using this

/-- `continueStatus` never holds of the status `"Ready"`. -/
lemma continueStatus_ne_ready (st : Option String) (h : continueStatus st = true) :
    st ≠ some "Ready" := by
  intro he
  rw [he] at h
  exact absurd h (by decide)

/-- Claim C2: within one attempt, poll statuses partition exactly:
`Ready` with a truthy `result.sample` URL ends the attempt returning
that URL after this one poll; `Ready` without a URL ends the attempt
as a failure with no further poll; `Processing`, `Queued` and
`Pending` continue polling; any other status ends the attempt as a
failure with no further poll; exhausting the 20-iteration budget is a
timeout, which makes the attempt report failure (and the retry loop
then simply moves to retry accounting instead of raising). -/
theorem C2_poll_status_partition (env : AttemptEnv) (envs : Nat → AttemptEnv)
    (r : PollResp) (u : String) (pc fuel k : Nat) :
    pollLoop env pc 0 = (.timeout, 0) ∧
    (env.poll pc = .ok r →
      (r.status = some "Ready" → pyTruthy r.sample = some u →
        pollLoop env pc (fuel + 1) = (.ready u, 1)) ∧
      (r.status = some "Ready" → pyTruthy r.sample = none →
        pollLoop env pc (fuel + 1) = (.noUrl, 1)) ∧
      (continueStatus r.status = true →
        pollLoop env pc (fuel + 1) =
          ((pollLoop env (pc + 1) fuel).1, (pollLoop env (pc + 1) fuel).2 + 1)) ∧
      (r.status ≠ some "Ready" → continueStatus r.status = false →
        pollLoop env pc (fuel + 1) = (.statusFail, 1))) ∧
    ((pollLoop env 0 maxPolls).1 = .timeout → (runAttempt env).1 = none) ∧
    ((runAttempt (envs k)).1 = none →
      genLoop envs k (fuel + 1) =
        ((genLoop envs (k + 1) fuel).1,
          attemptTrace k (envs k) :: (genLoop envs (k + 1) fuel).2)) := by
  refine ⟨by simp [pollLoop], ?_, ?_, ?_⟩
  · intro hp
    refine ⟨?_, ?_, ?_, ?_⟩
    · intro hR hs; simp [pollLoop, hp, hR, hs]
    · intro hR hs; simp [pollLoop, hp, hR, hs]
    · intro hC
      have hR := continueStatus_ne_ready r.status hC
      simp [pollLoop, hp, hR, hC]
    · intro hR hC; simp [pollLoop, hp, hR, hC]
  · intro hto
    cases he : pyTruthy env.encode with
    | none => simp [runAttempt, he]
    | some b =>
      cases hs : env.submit with
      | exn => simp [runAttempt, he, hs]
      | ok resp =>
        cases hid : pyTruthy resp.id with
        | none => simp [runAttempt, he, hs, hid]
        | some rid =>
          rcases hp : pollLoop env 0 maxPolls with ⟨o, n⟩
          rw [hp] at hto
          simp only at hto
          subst hto
          simp [runAttempt, he, hs, hid, hp]
  · intro hr
    simp [genLoop, hr]

/-- The claim theorem of C2, applied to a concrete environment whose
first poll answers `Ready` with a sample URL: the attempt ends after
exactly one poll, returning that URL. -/
theorem C2_poll_status_partition_witness :
    pollLoop ⟨some "b64", .ok ⟨some "j"⟩, fun _ => .ok ⟨some "Ready", some "u"⟩⟩ 0 (19 + 1) =
      (.ready "u", 1) :=
  (((C2_poll_status_partition
      ⟨some "b64", .ok ⟨some "j"⟩, fun _ => .ok ⟨some "Ready", some "u"⟩⟩
      (fun _ => ⟨some "b64", .ok ⟨some "j"⟩, fun _ => .ok ⟨some "Ready", some "u"⟩⟩)
      ⟨some "Ready", some "u"⟩ "u" 0 19 0).2.1 rfl).1) rfl rfl

/-- An attempt whose submit succeeded but returned no truthy id fails
with no poll issued. -/
lemma runAttempt_no_id (env : AttemptEnv) (b : String) (resp : SubmitResp)
    (he : pyTruthy env.encode = some b) (hs : env.submit = .ok resp)
    (hid : pyTruthy resp.id = none) : runAttempt env = (none, true, 0) := by
  simp [runAttempt, he, hs, hid]

/-- When every attempt's submit response lacks an id, the whole retry
loop fails with zero polls everywhere. -/
lemma genLoop_no_id (envs : Nat → AttemptEnv)
    (h : ∀ k, ∃ bk rk, pyTruthy (envs k).encode = some bk ∧
      (envs k).submit = .ok rk ∧ pyTruthy rk.id = none) :
    ∀ fuel k, (genLoop envs k fuel).1 = none ∧
      ∀ t ∈ (genLoop envs k fuel).2, t.polls = 0 := by
  intro fuel
  induction fuel with
  | zero => intro k; simp [genLoop]
  | succ n ih =>
    intro k
    obtain ⟨bk, rk, he, hs, hid⟩ := h k
    have hra := runAttempt_no_id (envs k) bk rk he hs hid
    have hr1 : (runAttempt (envs k)).1 = none := by rw [hra]
    constructor
    · simp [genLoop, hr1, (ih (k + 1)).1]
    · intro t ht
      simp only [genLoop, hr1, List.mem_cons] at ht
      cases ht with
      | inl hh => subst hh; simp [attemptTrace, hra]
      | inr hm => exact (ih (k + 1)).2 t hm

/-- Claim C3: a submit response with no `id` field ends the attempt at
once with no poll GET issued and counts toward the retry budget; when
every attempt's submit response lacks an id, the budget is exhausted,
`generate_stylized_image` returns `None`, no poll was ever issued, and
`process_image` reports the image as failed. -/
theorem C3_missing_id_fails_without_polling (env : AttemptEnv) (envs : Nat → AttemptEnv)
    (resp : SubmitResp) (b : String) (dl : String → DownloadResp) (timestamp : Nat)
    (image_filename output_dir : String) (max_retries : Nat) :
    (pyTruthy env.encode = some b → env.submit = .ok resp → pyTruthy resp.id = none →
      runAttempt env = (none, true, 0)) ∧
    ((∀ k, ∃ bk rk, pyTruthy (envs k).encode = some bk ∧
        (envs k).submit = .ok rk ∧ pyTruthy rk.id = none) →
      (generate_stylized_image envs max_retries).1 = none ∧
      (∀ t ∈ (generate_stylized_image envs max_retries).2, t.polls = 0) ∧
      process_image envs dl timestamp image_filename output_dir max_retries =
        (false, none)) := by
  constructor
  · intro he hs hid
    exact runAttempt_no_id env b resp he hs hid
  · intro h
    have hg := genLoop_no_id envs h (max_retries + 1) 0
    refine ⟨hg.1, hg.2, ?_⟩
    have hnone : (generate_stylized_image envs max_retries).1 = none := hg.1
    simp [process_image, hnone, pyTruthy]

/-- The claim theorem of C3, applied to a concrete environment whose
submit response has no id, with `max_retries = 3`: the attempt makes
no poll and fails. -/
theorem C3_missing_id_fails_without_polling_witness :
    runAttempt ⟨some "b64", .ok ⟨none⟩, fun _ => .ok ⟨some "Queued", none⟩⟩ =
      (none, true, 0) :=
  (C3_missing_id_fails_without_polling
      ⟨some "b64", .ok ⟨none⟩, fun _ => .ok ⟨some "Queued", none⟩⟩
      (fun _ => ⟨some "b64", .ok ⟨none⟩, fun _ => .ok ⟨some "Queued", none⟩⟩)
      ⟨none⟩ "b64" (fun _ => ⟨200, []⟩) 0 "a.jpg" "output_theatre" 3).1 rfl rfl rfl

/-- A truthy value is never the empty string. -/
lemma pyTruthy_some_ne (o : Option String) (s : String) (h : pyTruthy o = some s) :
    s ≠ "" := by
  cases o with
  | none => simp [pyTruthy] at h
  | some v =>
    by_cases hv : v = ""
    · simp [pyTruthy, hv] at h
    · simp only [pyTruthy, if_neg hv, Option.some.injEq] at h
      subst h
      exact hv

/-- A URL returned by the poll loop is never the empty string. -/
lemma pollLoop_ready_ne_empty (env : AttemptEnv) :
    ∀ fuel pc u n, pollLoop env pc fuel = (.ready u, n) → u ≠ "" := by
  intro fuel
  induction fuel with
  | zero => intro pc u n h; simp [pollLoop] at h
  | succ m ih =>
    intro pc u n h
    cases hp : env.poll pc with
    | exn => simp [pollLoop, hp] at h
    | ok r =>
      by_cases hR : r.status = some "Ready"
      · cases hs : pyTruthy r.sample with
        | none => simp [pollLoop, hp, hR, hs] at h
        | some v =>
          simp only [pollLoop, hp, if_pos hR, hs, Prod.mk.injEq] at h
          have hv := pyTruthy_some_ne r.sample v hs
          have huv : v = u := by
            have := h.1
            cases this
            rfl
          rw [← huv]
          exact hv
      · by_cases hC : continueStatus r.status
        · simp only [pollLoop, hp, if_neg hR, if_pos hC, Prod.mk.injEq] at h
          rcases hq : pollLoop env (pc + 1) m with ⟨o2, n2⟩
          rw [hq] at h
          have ho2 : o2 = .ready u := h.1
          exact ih (pc + 1) u n2 (by rw [hq, ho2])
        · simp [pollLoop, hp, hR, hC] at h

/-- A URL returned by one attempt is never the empty string. -/
lemma runAttempt_some_ne (env : AttemptEnv) (u : String)
    (h : (runAttempt env).1 = some u) : u ≠ "" := by
  cases he : pyTruthy env.encode with
  | none => simp [runAttempt, he] at h
  | some b =>
    cases hs : env.submit with
    | exn => simp [runAttempt, he, hs] at h
    | ok resp =>
      cases hid : pyTruthy resp.id with
      | none => simp [runAttempt, he, hs, hid] at h
      | some rid =>
        rcases hp : pollLoop env 0 maxPolls with ⟨o, n⟩
        cases o with
        | ready v =>
          simp only [runAttempt, he, hs, hid, hp, Option.some.injEq] at h
          rw [← h]
          exact pollLoop_ready_ne_empty env maxPolls 0 v n hp
        | noUrl => simp [runAttempt, he, hs, hid, hp] at h
        | statusFail => simp [runAttempt, he, hs, hid, hp] at h
        | exn => simp [runAttempt, he, hs, hid, hp] at h
        | timeout => simp [runAttempt, he, hs, hid, hp] at h

/-- A URL returned by the retry loop is never the empty string. -/
lemma genLoop_some_ne (envs : Nat → AttemptEnv) :
    ∀ fuel k u, (genLoop envs k fuel).1 = some u → u ≠ "" := by
  intro fuel
  induction fuel with
  | zero => intro k u h; simp [genLoop] at h
  | succ n ih =>
    intro k u h
    cases hr : (runAttempt (envs k)).1 with
    | some v =>
      simp only [genLoop, hr, Option.some.injEq] at h
      rw [← h]
      exact runAttempt_some_ne (envs k) v hr
    | none =>
      simp only [genLoop, hr] at h
      exact ih (k + 1) u h

/-- Claim C4: when generation reaches `Ready` with a result URL but
the download GET returns a status other than 200, no output file is
written and `process_image` returns `False`. -/
theorem C4_download_failure_writes_nothing (envs : Nat → AttemptEnv)
    (dl : String → DownloadResp) (timestamp max_retries : Nat)
    (image_filename output_dir url : String)
    (hgen : (generate_stylized_image envs max_retries).1 = some url)
    (hdl : (dl url).status_code ≠ 200) :
    process_image envs dl timestamp image_filename output_dir max_retries =
      (false, none) := by
  have hne : url ≠ "" := genLoop_some_ne envs (max_retries + 1) 0 url hgen
  have hpy : pyTruthy (generate_stylized_image envs max_retries).1 = some url := by
    rw [hgen]
    simp [pyTruthy, hne]
  simp [process_image, hpy, save_image_from_url, hdl]

/-- The claim theorem of C4, applied to a concrete environment where
generation succeeds at once but the download answers 404. -/
theorem C4_download_failure_writes_nothing_witness :
    process_image (fun _ => ⟨some "b64", .ok ⟨some "j"⟩, fun _ => .ok ⟨some "Ready", some "u"⟩⟩)
      (fun _ => ⟨404, []⟩) 7 "a.jpg" "output_theatre" 1 = (false, none) :=
  C4_download_failure_writes_nothing
    (fun _ => ⟨some "b64", .ok ⟨some "j"⟩, fun _ => .ok ⟨some "Ready", some "u"⟩⟩)
    (fun _ => ⟨404, []⟩) 7 1 "a.jpg" "output_theatre" "u" rfl (by decide)

/-- The claim theorem of C1, applied to a concrete environment in
which every submit response lacks an id, with `max_retries = 1`: all
`1 + 1` attempts are made and the result is `None`. -/
theorem C1_generate_terminates_within_budget_witness :
    (generate_stylized_image
        (fun _ => ⟨some "b64", .ok ⟨none⟩, fun _ => .ok ⟨some "Queued", none⟩⟩) 1).2.length
      = 1 + 1 :=
  ((C1_generate_terminates_within_budget
      (fun _ => ⟨some "b64", .ok ⟨none⟩, fun _ => .ok ⟨some "Queued", none⟩⟩) 1).2.2.2.2
    rfl).1

/-- Inserting a fresh key into the results dict appends it. -/
lemma dictInsert_of_not_mem (d : List (String × Bool)) (k : String) (v : Bool)
    (h : k ∉ d.map Prod.fst) : dictInsert d k v = d ++ [(k, v)] := by
  have hany : d.any (fun p => p.1 == k) = false := by
    rw [List.any_eq_false]
    intro p hp
    simp only [beq_iff_eq]
    intro he
    apply h
    rw [← he]
    exact List.mem_map_of_mem Prod.fst hp
  simp [dictInsert, hany]

/-- The batch fold over paths with pairwise distinct basenames just
appends one entry per image. -/
lemma runBatch_foldl (outcome : String → Except Unit Bool) :
    ∀ (imgs : List String) (acc : List (String × Bool)),
      (imgs.map baseName).Nodup →
      (∀ p ∈ imgs, baseName p ∉ acc.map Prod.fst) →
      imgs.foldl (fun res p => dictInsert res (baseName p) (tryOutcome outcome p)) acc =
        acc ++ imgs.map (fun p => (baseName p, tryOutcome outcome p)) := by
  intro imgs
  induction imgs with
  | nil => intro acc _ _; simp
  | cons p rest ih =>
    intro acc hnd hacc
    simp only [List.map_cons, List.nodup_cons] at hnd
    obtain ⟨hp_not, hnd_rest⟩ := hnd
    simp only [List.foldl_cons]
    rw [dictInsert_of_not_mem _ _ _ (hacc p (List.mem_cons_self p rest))]
    have hacc2 : ∀ q ∈ rest,
        baseName q ∉ (acc ++ [(baseName p, tryOutcome outcome p)]).map Prod.fst := by
      intro q hq
      simp only [List.map_append, List.mem_append, List.map_cons, List.map_nil,
        List.mem_singleton]
      push_neg
      refine ⟨hacc q (List.mem_cons_of_mem p hq), ?_⟩
      intro he
      apply hp_not
      rw [← he]
      exact List.mem_map_of_mem baseName hq
    rw [ih (acc ++ [(baseName p, tryOutcome outcome p)]) hnd_rest hacc2]
    simp

/-- With pairwise distinct basenames, the results dict has exactly one
entry per image, in order. -/
lemma runBatch_eq_map (imgs : List String) (outcome : String → Except Unit Bool)
    (h : (imgs.map baseName).Nodup) :
    runBatch imgs outcome = imgs.map (fun p => (baseName p, tryOutcome outcome p)) := by
  have := runBatch_foldl outcome imgs [] h (by simp)
  simpa [runBatch] using this

/-- Splitting a list of results by the success flag loses nothing. -/
lemma length_filter_split (l : List (String × Bool)) :
    (l.filter (fun p => p.2)).length + (l.filter (fun p => !p.2)).length = l.length := by
  induction l with
  | nil => simp
  | cons x xs ih =>
    cases hx : x.2 <;> simp [List.filter_cons, hx] <;> omega

/-- Claim C5: after the batch driver finishes, the reported successful
count plus the number of reported failures equals the number of
discovered input images (whose basenames, coming from one directory
enumeration, are pairwise distinct). -/
theorem C5_batch_summary_accounting (input_images : List String)
    (outcome : String → Except Unit Bool)
    (h : (input_images.map baseName).Nodup) :
    batchSuccessful (runBatch input_images outcome) +
      (batchFailures (runBatch input_images outcome)).length =
      input_images.length := by
  rw [runBatch_eq_map input_images outcome h]
  rw [batchSuccessful, batchFailures, List.length_map]
  rw [length_filter_split]
  exact List.length_map input_images _

/-- The claim theorem of C5, applied to a concrete batch of two images
with one success, one exception. -/
theorem C5_batch_summary_accounting_witness :
    batchSuccessful (runBatch ["input_theatre/a.jpg", "input_theatre/b.jpg"]
        (fun p => if p = "input_theatre/a.jpg" then .ok true else .error ())) +
      (batchFailures (runBatch ["input_theatre/a.jpg", "input_theatre/b.jpg"]
        (fun p => if p = "input_theatre/a.jpg" then .ok true else .error ()))).length = 2 :=
  C5_batch_summary_accounting ["input_theatre/a.jpg", "input_theatre/b.jpg"]
    (fun p => if p = "input_theatre/a.jpg" then .ok true else .error ()) (by decide)

end Restyle

namespace Renamer

/-- The anchored `stalls_r` literal rejects any name whose eighth
character is `w`. -/
lemma dropCI_stalls_r_w (l : List Char) :
    dropCI ['s','t','a','l','l','s','_','r'] ('s' :: 't' :: 'a' :: 'l' :: 'l' :: 's' :: '_' :: 'w' :: l) =
      none := by
  simp [dropCI, ciEq]

/-- A destination name `stalls_w<digits>.jpg` never matches the
`stalls_r(\d+).*\.jpg` pattern. -/
lemma stallsMatch_destName (d : String) : stallsMatch (destName d) = none := by
  have h : (destName d).data =
      's' :: 't' :: 'a' :: 'l' :: 'l' :: 's' :: '_' :: 'w' :: (d.data ++ ".jpg".data) := by
    simp [destName]
  simp [stallsMatch, stallsMatchL, String.toList, h, dropCI_stalls_r_w]

/-- A name matching the pattern does not start with a dot (its first
character compares case-insensitively equal to `s`). -/
lemma stallsMatch_head_ne_dot (s d : String) (h : stallsMatch s = some d) :
    (match s.toList with
     | [] => false
     | c :: _ => c != '.') = true := by
  have hpat : "stalls_r".toList = ['s','t','a','l','l','s','_','r'] := rfl
  rcases hl : s.toList with _ | ⟨c, cs⟩
  · rw [stallsMatch, hl, stallsMatchL, hpat] at h
    simp [dropCI] at h
  · by_cases hc : c = '.'
    · subst hc
      rw [stallsMatch, hl, stallsMatchL, hpat] at h
      simp [dropCI, ciEq] at h
    · simp [hc]

/-- Appending one fresh element keeps a listing duplicate-free. -/
lemma nodup_append_singleton {l : List String} {a : String}
    (hl : l.Nodup) (ha : a ∉ l) : (l ++ [a]).Nodup := by
  simp [List.nodup_append, hl, ha]

/-- Processing a concatenation of snapshots processes the pieces in
order, threading the directory state and the rename list. -/
lemma aux_append (ok : String → Bool) :
    ∀ (l₁ l₂ st : List String) (pairs : List (String × String)),
      renameFilesAux ok (l₁ ++ l₂) st pairs =
        renameFilesAux ok l₂ (renameFilesAux ok l₁ st pairs).1
          (renameFilesAux ok l₁ st pairs).2 := by
  intro l₁
  induction l₁ with
  | nil => intro l₂ st pairs; simp [renameFilesAux]
  | cons f rest ih =>
    intro l₂ st pairs
    cases hf : stallsMatch f with
    | none =>
      simp only [List.cons_append, renameFilesAux, hf]
      exact ih l₂ st pairs
    | some d =>
      by_cases hdest : destName d ∈ st
      · simp only [List.cons_append, renameFilesAux, hf, if_pos hdest]
        exact ih l₂ st pairs
      · by_cases hok : ok f = true
        · simp only [List.cons_append, renameFilesAux, hf, if_neg hdest, if_pos hok]
          exact ih l₂ _ _
        · simp only [List.cons_append, renameFilesAux, hf, if_neg hdest, if_neg hok]
          exact ih l₂ st pairs

/-- A name on which `os.rename` would fail (or which never matches)
survives the whole loop in the directory. -/
lemma aux_mem_pres (ok : String → Bool) :
    ∀ (files st : List String) (pairs : List (String × String)) (x : String),
      x ∈ st → (∀ e, stallsMatch x = some e → ok x = false) →
      x ∈ (renameFilesAux ok files st pairs).1 := by
  intro files
  induction files with
  | nil => intro st pairs x hx _; simpa [renameFilesAux] using hx
  | cons f rest ih =>
    intro st pairs x hx hx2
    cases hf : stallsMatch f with
    | none =>
      simp only [renameFilesAux, hf]
      exact ih st pairs x hx hx2
    | some d =>
      by_cases hdest : destName d ∈ st
      · simp only [renameFilesAux, hf, if_pos hdest]
        exact ih st pairs x hx hx2
      · by_cases hok : ok f = true
        · simp only [renameFilesAux, hf, if_neg hdest, if_pos hok]
          apply ih
          · apply List.mem_append_left
            by_cases hfx : f = x
            · exfalso
              subst hfx
              have h2 := hx2 d hf
              rw [h2] at hok
              exact Bool.noConfusion hok
            · exact (List.mem_erase_of_ne (fun he => hfx he.symm)).mpr hx
          · exact hx2
        · simp only [renameFilesAux, hf, if_neg hdest, if_neg hok]
          exact ih st pairs x hx hx2

/-- A directory entry that is not in the glob snapshot is never
touched. -/
lemma aux_mem_pres_notin (ok : String → Bool) :
    ∀ (files st : List String) (pairs : List (String × String)) (x : String),
      x ∈ st → x ∉ files → x ∈ (renameFilesAux ok files st pairs).1 := by
  intro files
  induction files with
  | nil => intro st pairs x hx _; simpa [renameFilesAux] using hx
  | cons f rest ih =>
    intro st pairs x hx hnf
    have hfx : f ≠ x := fun he => hnf (he ▸ List.mem_cons_self f rest)
    have hrest : x ∉ rest := fun hr => hnf (List.mem_cons_of_mem f hr)
    cases hf : stallsMatch f with
    | none =>
      simp only [renameFilesAux, hf]
      exact ih st pairs x hx hrest
    | some d =>
      by_cases hdest : destName d ∈ st
      · simp only [renameFilesAux, hf, if_pos hdest]
        exact ih st pairs x hx hrest
      · by_cases hok : ok f = true
        · simp only [renameFilesAux, hf, if_neg hdest, if_pos hok]
          apply ih _ _ x _ hrest
          exact List.mem_append_left _ ((List.mem_erase_of_ne (fun he => hfx he.symm)).mpr hx)
        · simp only [renameFilesAux, hf, if_neg hdest, if_neg hok]
          exact ih st pairs x hx hrest

/-- A name that is absent and that no processed file's destination
equals stays absent. -/
lemma aux_not_mem (ok : String → Bool) :
    ∀ (files st : List String) (pairs : List (String × String)) (x : String),
      x ∉ st → (∀ f ∈ files, ∀ e, stallsMatch f = some e → destName e ≠ x) →
      x ∉ (renameFilesAux ok files st pairs).1 := by
  intro files
  induction files with
  | nil => intro st pairs x hx _; simpa [renameFilesAux] using hx
  | cons f rest ih =>
    intro st pairs x hx hdests
    have hrest : ∀ g ∈ rest, ∀ e, stallsMatch g = some e → destName e ≠ x :=
      fun g hg => hdests g (List.mem_cons_of_mem f hg)
    cases hf : stallsMatch f with
    | none =>
      simp only [renameFilesAux, hf]
      exact ih st pairs x hx hrest
    | some d =>
      by_cases hdest : destName d ∈ st
      · simp only [renameFilesAux, hf, if_pos hdest]
        exact ih st pairs x hx hrest
      · by_cases hok : ok f = true
        · simp only [renameFilesAux, hf, if_neg hdest, if_pos hok]
          apply ih _ _ x _ hrest
          intro hmem
          rcases List.mem_append.mp hmem with hin | hin
          · exact hx (List.mem_of_mem_erase hin)
          · have hx2 : x = destName d := by simpa using hin
            exact hdests f (List.mem_cons_self f rest) d hf hx2.symm
        · simp only [renameFilesAux, hf, if_neg hdest, if_neg hok]
          exact ih st pairs x hx hrest

/-- Renames recorded before the loop stay recorded. -/
lemma aux_pairs_mono (ok : String → Bool) :
    ∀ (files st : List String) (pairs : List (String × String)) (p : String × String),
      p ∈ pairs → p ∈ (renameFilesAux ok files st pairs).2 := by
  intro files
  induction files with
  | nil => intro st pairs p hp; simpa [renameFilesAux] using hp
  | cons f rest ih =>
    intro st pairs p hp
    cases hf : stallsMatch f with
    | none =>
      simp only [renameFilesAux, hf]
      exact ih st pairs p hp
    | some d =>
      by_cases hdest : destName d ∈ st
      · simp only [renameFilesAux, hf, if_pos hdest]
        exact ih st pairs p hp
      · by_cases hok : ok f = true
        · simp only [renameFilesAux, hf, if_neg hdest, if_pos hok]
          exact ih _ _ p (List.mem_append_left _ hp)
        · simp only [renameFilesAux, hf, if_neg hdest, if_neg hok]
          exact ih st pairs p hp

/-- Every rename the loop records has a source from the snapshot that
matched the pattern, on which `os.rename` succeeded, and a destination
of the form `stalls_w<digits>.jpg`. -/
lemma aux_srcs (ok : String → Bool) :
    ∀ (files st : List String) (pairs : List (String × String)) (p : String × String),
      p ∈ (renameFilesAux ok files st pairs).2 →
      p ∈ pairs ∨ (p.1 ∈ files ∧ ok p.1 = true ∧
        ∃ e, stallsMatch p.1 = some e ∧ p.2 = destName e) := by
  intro files
  induction files with
  | nil => intro st pairs p hp; left; simpa [renameFilesAux] using hp
  | cons f rest ih =>
    intro st pairs p hp
    cases hf : stallsMatch f with
    | none =>
      simp only [renameFilesAux, hf] at hp
      rcases ih st pairs p hp with h | ⟨h1, h2, h3⟩
      · exact Or.inl h
      · exact Or.inr ⟨List.mem_cons_of_mem f h1, h2, h3⟩
    | some d =>
      by_cases hdest : destName d ∈ st
      · simp only [renameFilesAux, hf, if_pos hdest] at hp
        rcases ih st pairs p hp with h | ⟨h1, h2, h3⟩
        · exact Or.inl h
        · exact Or.inr ⟨List.mem_cons_of_mem f h1, h2, h3⟩
      · by_cases hok : ok f = true
        · simp only [renameFilesAux, hf, if_neg hdest, if_pos hok] at hp
          rcases ih _ _ p hp with h | ⟨h1, h2, h3⟩
          · rcases List.mem_append.mp h with h' | h'
            · exact Or.inl h'
            · have hpf : p = (f, destName d) := by simpa using h'
              refine Or.inr ⟨?_, ?_, d, ?_, ?_⟩
              · rw [hpf]; exact List.mem_cons_self f rest
              · rw [hpf]; exact hok
              · rw [hpf]; exact hf
              · rw [hpf]
          · exact Or.inr ⟨List.mem_cons_of_mem f h1, h2, h3⟩
        · simp only [renameFilesAux, hf, if_neg hdest, if_neg hok] at hp
          rcases ih st pairs p hp with h | ⟨h1, h2, h3⟩
          · exact Or.inl h
          · exact Or.inr ⟨List.mem_cons_of_mem f h1, h2, h3⟩

/-- A matching file whose destination is already present in the
directory is skipped: it survives, and no rename with it as source is
recorded beyond those already recorded. -/
lemma aux_skip (ok : String → Bool) :
    ∀ (files st : List String) (pairs : List (String × String)) (b db : String),
      stallsMatch b = some db → destName db ∈ st → b ∈ st →
      b ∈ (renameFilesAux ok files st pairs).1 ∧
      ∀ p ∈ (renameFilesAux ok files st pairs).2, p.1 = b → p ∈ pairs := by
  intro files
  induction files with
  | nil =>
    intro st pairs b db _ _ hbst
    refine ⟨by simpa [renameFilesAux] using hbst, ?_⟩
    intro p hp _
    simpa [renameFilesAux] using hp
  | cons f rest ih =>
    intro st pairs b db hb hdb hbst
    cases hf : stallsMatch f with
    | none =>
      simp only [renameFilesAux, hf]
      exact ih st pairs b db hb hdb hbst
    | some d =>
      by_cases hdest : destName d ∈ st
      · simp only [renameFilesAux, hf, if_pos hdest]
        exact ih st pairs b db hb hdb hbst
      · have hfb : f ≠ b := by
          intro he
          rw [he, hb] at hf
          have hd : db = d := by simpa using hf
          exact hdest (hd ▸ hdb)
        by_cases hok : ok f = true
        · simp only [renameFilesAux, hf, if_neg hdest, if_pos hok]
          have hfd : f ≠ destName db := by
            intro he
            rw [he, stallsMatch_destName] at hf
            exact Option.noConfusion hf
          have hdb2 : destName db ∈ st.erase f ++ [destName d] :=
            List.mem_append_left _
              ((List.mem_erase_of_ne (fun he => hfd he.symm)).mpr hdb)
          have hbst2 : b ∈ st.erase f ++ [destName d] :=
            List.mem_append_left _
              ((List.mem_erase_of_ne (fun he => hfb he.symm)).mpr hbst)
          have hih := ih (st.erase f ++ [destName d]) (pairs ++ [(f, destName d)])
            b db hb hdb2 hbst2
          refine ⟨hih.1, ?_⟩
          intro p hp hpb
          rcases List.mem_append.mp (hih.2 p hp hpb) with h' | h'
          · exact h'
          · exfalso
            have hpf : p = (f, destName d) := by simpa using h'
            rw [hpf] at hpb
            exact hfb hpb
        · simp only [renameFilesAux, hf, if_neg hdest, if_neg hok]
          exact ih st pairs b db hb hdb hbst

/-- A matching file with a fresh, uncontended destination is renamed:
afterwards the destination is present, the source is gone, and the
rename is recorded. -/
lemma aux_run (ok : String → Bool) :
    ∀ (files st : List String) (pairs : List (String × String)) (name d : String),
      ok name = true → name ∈ files → stallsMatch name = some d →
      destName d ∉ st → name ∈ st → st.Nodup →
      (∀ f ∈ files, f ≠ name → ∀ e, stallsMatch f = some e →
        destName e ≠ destName d) →
      destName d ∈ (renameFilesAux ok files st pairs).1 ∧
      name ∉ (renameFilesAux ok files st pairs).1 ∧
      (name, destName d) ∈ (renameFilesAux ok files st pairs).2 := by
  intro files
  induction files with
  | nil =>
    intro st pairs name d _ hmem
    exact absurd hmem (List.not_mem_nil name)
  | cons f rest ih =>
    intro st pairs name d hok hmem hm hdest hname hnd hcol
    by_cases hfn : f = name
    · subst hfn
      simp only [renameFilesAux, hm, if_neg hdest, if_pos hok]
      refine ⟨?_, ?_, ?_⟩
      · apply aux_mem_pres
        · exact List.mem_append_right _ (List.mem_singleton.mpr rfl)
        · intro e he
          rw [stallsMatch_destName] at he
          exact Option.noConfusion he
      · apply aux_not_mem
        · intro hmm
          rcases List.mem_append.mp hmm with h' | h'
          · exact hnd.not_mem_erase h'
          · have hfd : f = destName d := by simpa using h'
            rw [hfd, stallsMatch_destName] at hm
            exact Option.noConfusion hm
        · intro g hg e he heq
          rw [← heq, stallsMatch_destName] at hm
          exact Option.noConfusion hm
      · apply aux_pairs_mono
        exact List.mem_append_right _ (List.mem_singleton.mpr rfl)
    · have hmemr : name ∈ rest := by
        rcases List.mem_cons.mp hmem with h' | h'
        · exact absurd h'.symm hfn
        · exact h'
      have hcolr : ∀ g ∈ rest, g ≠ name → ∀ e, stallsMatch g = some e →
          destName e ≠ destName d :=
        fun g hg => hcol g (List.mem_cons_of_mem f hg)
      cases hf : stallsMatch f with
      | none =>
        simp only [renameFilesAux, hf]
        exact ih st pairs name d hok hmemr hm hdest hname hnd hcolr
      | some e =>
        have hne : destName e ≠ destName d := hcol f (List.mem_cons_self f rest) hfn e hf
        by_cases hdest2 : destName e ∈ st
        · simp only [renameFilesAux, hf, if_pos hdest2]
          exact ih st pairs name d hok hmemr hm hdest hname hnd hcolr
        · by_cases hok2 : ok f = true
          · simp only [renameFilesAux, hf, if_neg hdest2, if_pos hok2]
            apply ih _ _ name d hok hmemr hm _ _ _ hcolr
            · intro hmm
              rcases List.mem_append.mp hmm with h' | h'
              · exact hdest (List.mem_of_mem_erase h')
              · have : destName d = destName e := by simpa using h'
                exact hne this.symm
            · exact List.mem_append_left _
                ((List.mem_erase_of_ne (fun he => hfn he.symm)).mpr hname)
            · exact nodup_append_singleton (hnd.erase f)
                (fun hmm => hdest2 (List.mem_of_mem_erase hmm))
          · simp only [renameFilesAux, hf, if_neg hdest2, if_neg hok2]
            exact ih st pairs name d hok hmemr hm hdest hname hnd hcolr

/-- Claim C6 (amended): a file of the glob snapshot matching
`stalls_r<digits>` (case-insensitively) and ending in lowercase `.jpg`
is renamed to `stalls_w<digits>.jpg` with the captured digit string
preserved exactly, provided that destination is not already taken —
neither initially present nor produced by another matching file — and
files not matching the pattern (or not in the snapshot) are never
renamed. -/
theorem C6_matching_files_renamed (listing : List String) (name d : String)
    (hnd : listing.Nodup) (hmem : name ∈ listing)
    (hjpg : [ '.', 'j', 'p', 'g'] <:+ name.toList)
    (hmatch : stallsMatch name = some d)
    (hdest : destName d ∉ listing)
    (hcol : ∀ other ∈ listing, other ≠ name → ∀ e, stallsMatch other = some e →
      destName e ≠ destName d) :
    destName d ∈ (rename_theatre_files okAll listing).1 ∧
    name ∉ (rename_theatre_files okAll listing).1 ∧
    (name, destName d) ∈ (rename_theatre_files okAll listing).2 ∧
    (∀ m ∈ listing, stallsMatch m = none ∨ isJpgName m = false →
      m ∈ (rename_theatre_files okAll listing).1) := by
  have hhead := stallsMatch_head_ne_dot name d hmatch
  have hjn : isJpgName name = true := by
    simp only [isJpgName, hhead, Bool.true_and]
    exact decide_eq_true hjpg
  have hmemg : name ∈ globJpg listing := List.mem_filter.mpr ⟨hmem, hjn⟩
  have hcolg : ∀ f ∈ globJpg listing, f ≠ name → ∀ e, stallsMatch f = some e →
      destName e ≠ destName d := by
    intro f hf
    exact hcol f (List.mem_filter.mp hf).1
  have hrun := aux_run okAll (globJpg listing) listing [] name d rfl hmemg hmatch
    hdest hmem hnd hcolg
  refine ⟨hrun.1, hrun.2.1, hrun.2.2, ?_⟩
  intro m hm hcase
  rcases hcase with hnone | hnotjpg
  · exact aux_mem_pres okAll (globJpg listing) listing [] m hm
      (fun e he => absurd he (by simp [hnone]))
  · apply aux_mem_pres_notin okAll (globJpg listing) listing [] m hm
    intro hmg
    have hit := (List.mem_filter.mp hmg).2
    rw [hnotjpg] at hit
    exact Bool.noConfusion hit

/-- The claim theorem of C6, applied to a concrete directory: the
matching file `stalls_r3-x.jpg` is renamed, so `stalls_w3.jpg` is
present afterwards. -/
theorem C6_matching_files_renamed_witness :
    destName "3" ∈ (rename_theatre_files okAll ["stalls_r3-x.jpg", "notes.txt"]).1 := by
  refine (C6_matching_files_renamed ["stalls_r3-x.jpg", "notes.txt"] "stalls_r3-x.jpg" "3"
    (by decide) (by decide) (by decide) (by decide) (by decide) ?_).1
  intro other ho hne e he heq
  rcases List.mem_cons.mp ho with h1 | h1
  · exact hne h1
  · have h2 : other = "notes.txt" := by simpa using h1
    rw [h2] at he
    rw [show stallsMatch "notes.txt" = none from by decide] at he
    exact Option.noConfusion he

/-- Claim C6 as frozen is falsified by a destination collision: in a
directory already containing `stalls_w2.jpg`, the matching file
`stalls_r2.jpg` is left unrenamed even though it starts with
`stalls_r` followed by digits and ends in `.jpg`. -/
theorem C6_collision_counterexample :
    stallsMatch "stalls_r2.jpg" = some "2" ∧
    rename_theatre_files okAll ["stalls_r2.jpg", "stalls_w2.jpg"] =
      (["stalls_r2.jpg", "stalls_w2.jpg"], []) := by
  exact ⟨by decide, by decide⟩

/-- Claim C7 is falsified: `STALLS_R2.JPG` matches the (IGNORECASE)
regular expression, yet it is not a rename candidate and nothing is
renamed, because the candidate listing `glob("*.jpg")` is
case-sensitive on a POSIX filesystem. -/
theorem C7_uppercase_extension_counterexample :
    stallsMatch "STALLS_R2.JPG" = some "2" ∧
    isJpgName "STALLS_R2.JPG" = false ∧
    rename_theatre_files okAll ["STALLS_R2.JPG"] = (["STALLS_R2.JPG"], []) := by
  exact ⟨by decide, by decide, by decide⟩

/-- Claim C7 (amended): only files ending in lowercase `.jpg` are
rename candidates; a file whose name ends in `.JPG` is never in the
glob snapshot, is never renamed, and never appears as a recorded
rename source — the regex's case-insensitivity does not extend to
candidate enumeration. -/
theorem C7_amended_case_sensitive_glob (ok : String → Bool) (listing : List String)
    (name : String) (hmem : name ∈ listing)
    (hJPG : [ '.', 'J', 'P', 'G'] <:+ name.toList) :
    name ∉ globJpg listing ∧
    name ∈ (rename_theatre_files ok listing).1 ∧
    name ∉ (rename_theatre_files ok listing).2.map Prod.fst := by
  have hnj : isJpgName name = false := by
    have hns : ¬ ([ '.', 'j', 'p', 'g'] <:+ name.toList) := by
      intro h2
      obtain ⟨t1, ht1⟩ := hJPG
      obtain ⟨t2, ht2⟩ := h2
      have hl : t1.length = t2.length := by
        have := congrArg List.length (ht1.trans ht2.symm)
        simpa using this
      have := (List.append_inj (ht1.trans ht2.symm) hl).2
      exact absurd this (by decide)
    unfold isJpgName
    rw [decide_eq_false hns, Bool.and_false]
  have hng : name ∉ globJpg listing := by
    intro hg
    have hit := (List.mem_filter.mp hg).2
    rw [hnj] at hit
    exact Bool.noConfusion hit
  refine ⟨hng, ?_, ?_⟩
  · exact aux_mem_pres_notin ok (globJpg listing) listing [] name hmem hng
  · intro hmm
    rcases List.mem_map.mp hmm with ⟨p, hp, hpb⟩
    rcases aux_srcs ok (globJpg listing) listing [] p hp with h | ⟨h1, _, _⟩
    · simp at h
    · rw [hpb] at h1
      exact hng h1

/-- The amended theorem of C7, applied to a concrete directory with a
single `.JPG` file: it is not a candidate. -/
theorem C7_amended_case_sensitive_glob_witness :
    "a.JPG" ∉ globJpg ["a.JPG"] :=
  (C7_amended_case_sensitive_glob okAll ["a.JPG"] "a.JPG" (by decide) (by decide)).1

/-- Claim C8: a matching file whose destination `stalls_w<digits>.jpg`
already exists when it is processed is left unrenamed (no error, the
loop goes on) and excluded from the rename count; and among several
sources mapping to the same destination, any source after the first is
never renamed. -/
theorem C8_existing_destination_skipped (ok : String → Bool) (listing : List String)
    (name d a b da db : String) (l₁ l₂ : List String) :
    (name ∈ globJpg listing → stallsMatch name = some d → destName d ∈ listing →
      name ∈ (rename_theatre_files ok listing).1 ∧
      name ∉ (rename_theatre_files ok listing).2.map Prod.fst) ∧
    (listing.Nodup → globJpg listing = l₁ ++ a :: l₂ → b ∈ l₂ →
      stallsMatch a = some da → stallsMatch b = some db → destName da = destName db →
      b ∈ (rename_theatre_files okAll listing).1 ∧
      b ∉ (rename_theatre_files okAll listing).2.map Prod.fst) := by
  constructor
  · intro hmemg hm hdl
    have hmem : name ∈ listing := (List.mem_filter.mp hmemg).1
    have hskip := aux_skip ok (globJpg listing) listing [] name d hm hdl hmem
    refine ⟨hskip.1, ?_⟩
    intro hmm
    rcases List.mem_map.mp hmm with ⟨p, hp, hpb⟩
    have := hskip.2 p hp hpb
    simp at this
  · intro hnd hsplit hbl2 hma hmb hdd
    have hgnd : (globJpg listing).Nodup := hnd.filter _
    rw [hsplit] at hgnd
    have hdisj := List.disjoint_of_nodup_append hgnd
    have hanl1 : a ∉ l₁ := fun hal1 => hdisj hal1 (List.mem_cons_self a l₂)
    have hbnl1 : b ∉ l₁ := fun hbl1 => hdisj hbl1 (List.mem_cons_of_mem a hbl2)
    have hba : b ≠ a := by
      have hnd2 : (a :: l₂).Nodup := (List.nodup_append.mp hgnd).2.1
      intro he
      rw [he] at hbl2
      exact (List.nodup_cons.mp hnd2).1 hbl2
    have hbmem : b ∈ listing := by
      have hbg : b ∈ globJpg listing := by
        rw [hsplit]
        exact List.mem_append_right _ (List.mem_cons_of_mem a hbl2)
      exact (List.mem_filter.mp hbg).1
    have hamem : a ∈ listing := by
      have hag : a ∈ globJpg listing := by
        rw [hsplit]
        exact List.mem_append_right _ (List.mem_cons_self a l₂)
      exact (List.mem_filter.mp hag).1
    have hsegment : rename_theatre_files okAll listing =
        renameFilesAux okAll (a :: l₂) (renameFilesAux okAll l₁ listing []).1
          (renameFilesAux okAll l₁ listing []).2 := by
      rw [rename_theatre_files, hsplit, aux_append]
    have hbst1 : b ∈ (renameFilesAux okAll l₁ listing []).1 :=
      aux_mem_pres_notin okAll l₁ listing [] b hbmem hbnl1
    have hsrc1 : ∀ p ∈ (renameFilesAux okAll l₁ listing []).2, p.1 ≠ b := by
      intro p hp hpb
      rcases aux_srcs okAll l₁ listing [] p hp with h | ⟨h1, _, _⟩
      · simp at h
      · rw [hpb] at h1
        exact hbnl1 h1
    by_cases hd1 : destName da ∈ (renameFilesAux okAll l₁ listing []).1
    · have hstep : renameFilesAux okAll (a :: l₂) (renameFilesAux okAll l₁ listing []).1
          (renameFilesAux okAll l₁ listing []).2 =
          renameFilesAux okAll l₂ (renameFilesAux okAll l₁ listing []).1
            (renameFilesAux okAll l₁ listing []).2 := by
        simp only [renameFilesAux, hma, if_pos hd1]
      have hdb1 : destName db ∈ (renameFilesAux okAll l₁ listing []).1 := hdd ▸ hd1
      have hskip := aux_skip okAll l₂ (renameFilesAux okAll l₁ listing []).1
        (renameFilesAux okAll l₁ listing []).2 b db hmb hdb1 hbst1
      rw [hsegment, hstep]
      refine ⟨hskip.1, ?_⟩
      intro hmm
      rcases List.mem_map.mp hmm with ⟨p, hp, hpb⟩
      exact hsrc1 p (hskip.2 p hp hpb) hpb
    · have hstep : renameFilesAux okAll (a :: l₂) (renameFilesAux okAll l₁ listing []).1
          (renameFilesAux okAll l₁ listing []).2 =
          renameFilesAux okAll l₂
            ((renameFilesAux okAll l₁ listing []).1.erase a ++ [destName da])
            ((renameFilesAux okAll l₁ listing []).2 ++ [(a, destName da)]) := by
        simp only [renameFilesAux, hma, if_neg hd1, okAll]
        simp
      have hdb2 : destName db ∈
          (renameFilesAux okAll l₁ listing []).1.erase a ++ [destName da] := by
        apply List.mem_append_right
        simp [hdd]
      have hbst2 : b ∈ (renameFilesAux okAll l₁ listing []).1.erase a ++ [destName da] :=
        List.mem_append_left _ ((List.mem_erase_of_ne hba).mpr hbst1)
      have hskip := aux_skip okAll l₂
        ((renameFilesAux okAll l₁ listing []).1.erase a ++ [destName da])
        ((renameFilesAux okAll l₁ listing []).2 ++ [(a, destName da)]) b db hmb hdb2 hbst2
      rw [hsegment, hstep]
      refine ⟨hskip.1, ?_⟩
      intro hmm
      rcases List.mem_map.mp hmm with ⟨p, hp, hpb⟩
      rcases List.mem_append.mp (hskip.2 p hp hpb) with h' | h'
      · exact hsrc1 p h' hpb
      · have hpa : p = (a, destName da) := by simpa using h'
        rw [hpa] at hpb
        exact hba hpb.symm

/-- The claim theorem of C8, applied to a concrete directory in which
`stalls_w2.jpg` already exists: `stalls_r2.jpg` survives unrenamed. -/
theorem C8_existing_destination_skipped_witness :
    "stalls_r2.jpg" ∈ (rename_theatre_files okAll ["stalls_r2.jpg", "stalls_w2.jpg"]).1 :=
  ((C8_existing_destination_skipped okAll ["stalls_r2.jpg", "stalls_w2.jpg"]
    "stalls_r2.jpg" "2" "" "" "" "" [] []).1 (by decide) (by decide) (by decide)).1

/-- Claim C10: when `os.rename` raises for some file, the error is
caught and the loop simply continues with the remaining files (no
exception escapes — the embedding is a total function), the file stays
in the directory, and no rename with it as source is recorded, so the
reported count excludes it. -/
theorem C10_rename_error_logged_and_skipped (ok : String → Bool)
    (listing rest st : List String) (pairs : List (String × String))
    (f name d : String) :
    (stallsMatch f = some d → destName d ∉ st → ok f = false →
      renameFilesAux ok (f :: rest) st pairs = renameFilesAux ok rest st pairs) ∧
    (name ∈ listing → ok name = false →
      name ∈ (rename_theatre_files ok listing).1 ∧
      name ∉ (rename_theatre_files ok listing).2.map Prod.fst) := by
  constructor
  · intro hf hdest hok
    have hok2 : ¬ (ok f = true) := by simp [hok]
    simp only [renameFilesAux, hf, if_neg hdest, if_neg hok2]
  · intro hmem hok
    refine ⟨aux_mem_pres ok (globJpg listing) listing [] name hmem (fun e _ => hok), ?_⟩
    intro hmm
    rcases List.mem_map.mp hmm with ⟨p, hp, hpb⟩
    rcases aux_srcs ok (globJpg listing) listing [] p hp with h | ⟨_, h2, _⟩
    · simp at h
    · rw [hpb, hok] at h2
      exact Bool.noConfusion h2

/-- The claim theorem of C10, applied to a concrete directory where
`os.rename` always fails: the matching file survives. -/
theorem C10_rename_error_logged_and_skipped_witness :
    "stalls_r5.jpg" ∈ (rename_theatre_files (fun _ => false) ["stalls_r5.jpg"]).1 :=
  ((C10_rename_error_logged_and_skipped (fun _ => false) ["stalls_r5.jpg"] [] [] []
    "x" "stalls_r5.jpg" "").2 (by decide) rfl).1

end Renamer

namespace Contour

/-- Claim C9: for every readable input image, the contour image
produced and written by `generate_contours` has exactly the input's
dimensions, whatever the library's grayscale, blur, edge-detection and
contour-tracing stages return: the output canvas is
`np.zeros_like(img)` of the original image, drawn on in place. -/
theorem C9_contour_dims_preserved (input : Img) (cvt blur canny : Img → Img)
    (findContours : Img → List (List (Nat × Nat))) :
    resultDims (generate_contours (some input) cvt blur canny findContours) =
      some (input.h, input.w) := rfl

end Contour
